import Mathlib

/-!
Verification of the PyTOON TOON codec specification against a shallow
embedding of the library.

The repository ships the public package front (pytoon/__init__.py) and an
extensive unit-test suite, while the internal codec modules
(pytoon/core/encoder.py, pytoon/core/decoder.py, pytoon/encoder/value.py,
pytoon/encoder/quoting.py, pytoon/encoder/tabular.py,
pytoon/encoder/keyfolding.py, pytoon/encoder/array.py,
pytoon/encoder/object.py, pytoon/decoder/depth_decoder.py,
pytoon/decoder/scanner.py, pytoon/decoder/parser_utils.py,
pytoon/decoder/validator.py) are not present in the source tree.  Every
definition below that embeds one of those modules is therefore modelled from
the specification, with each concrete behaviour that the unit tests pin down
(exact expected strings and values) reproduced faithfully.
-/

namespace PyTOON

/-! ## Data model -/

/-- Modelled from the spec: a Python float as the codec sees it.  The codec
only ever inspects a float through its shortest decimal representation
(`repr`), so a finite float is embedded as a sign, a decimal magnitude `mag`
and a fractional length `e`: the number `±mag / 10^e`.  NaN and the two
infinities are the special values the Value Formatter collapses to `null`. -/
inductive PyFloat where
  | nan
  | inf
  | ninf
  | fin (neg : Bool) (mag : Nat) (e : Nat)
deriving Repr, DecidableEq

/-- The TOON data model (spec section 3): a tagged union over null, bool,
int, float, string, array and object, objects being ordered lists of
key-value pairs with string keys. -/
inductive Value where
  | null
  | bool (b : Bool)
  | int (n : Int)
  | float (f : PyFloat)
  | str (s : String)
  | arr (xs : List Value)
  | obj (kvs : List (String × Value))
deriving Repr

/-- Scalar test: everything except arrays and objects. -/
def isScalarV : Value → Bool
  | .arr _ => false
  | .obj _ => false
  | _ => true

/-! ## Character helpers -/

/-- ASCII digit test. -/
def isDigitCh (c : Char) : Bool := 48 ≤ c.toNat && c.toNat ≤ 57

/-- Whitespace as Python `str.strip` sees it (space, tab, newline, CR). -/
def isWsCh (c : Char) : Bool := c = ' ' || c = '\t' || c = '\n' || c = '\r'

/-- ASCII letter test. -/
def isLetterCh (c : Char) : Bool :=
  (65 ≤ c.toNat && c.toNat ≤ 90) || (97 ≤ c.toNat && c.toNat ≤ 122)

/-- The character for a decimal digit value. -/
def digitChar (d : Nat) : Char := Char.ofNat (48 + d)

/-- Decimal digits, least significant first, with explicit fuel (the fuel
only needs to cover the digit count, so `n + 1` always suffices). -/
def natDigitsRevF : Nat → Nat → List Char
  | 0, _ => []
  | fuel + 1, n =>
    if n < 10 then [digitChar n]
    else digitChar (n % 10) :: natDigitsRevF fuel (n / 10)

/-- Decimal digits of a natural number, least significant first. -/
def natDigitsRev (n : Nat) : List Char := natDigitsRevF (n + 1) n

/-- Decimal digits of a natural number, most significant first. -/
def natDigits (n : Nat) : List Char := (natDigitsRev n).reverse

/-- Plain decimal rendering of a natural number. -/
def natDec (n : Nat) : String := String.mk (natDigits n)

/-- Plain decimal rendering of an integer (a minus sign followed by the
decimal digits when negative). -/
def intDec : Int → String
  | .ofNat n => natDec n
  | .negSucc m => "-" ++ natDec (m + 1)

/-! ## Value Formatter (pytoon/encoder/value.py, ValueEncoder) -/

/-- Encode-side error taxonomy (spec section 7). -/
inductive EncodeErr where
  | unsupportedType (tname : String)
  | maxDepth
deriving Repr, DecidableEq

/-- Strip the trailing zeros of a fractional digit block. -/
def stripTrailingZeros (fp : List Char) : List Char :=
  (fp.reverse.dropWhile (fun c => c = '0')).reverse

/-- The digits of the magnitude, left-padded with zeros so that at least one
digit sits left of the decimal point. -/
def padDigits (mag e : Nat) : List Char :=
  List.replicate (e + 1 - (natDigits mag).length) '0' ++ natDigits mag

/-- The integer-part digits of the decimal rendering. -/
def ipPart (mag e : Nat) : List Char :=
  (padDigits mag e).take ((padDigits mag e).length - e)

/-- The fractional-part digits, trailing zeros stripped. -/
def fpPart (mag e : Nat) : List Char :=
  stripTrailingZeros ((padDigits mag e).drop ((padDigits mag e).length - e))

/-- Unsigned decimal rendering: integer part, then a point and the
fraction when any fraction survives the stripping. -/
def finCore (mag e : Nat) : List Char :=
  if (fpPart mag e).isEmpty then ipPart mag e
  else ipPart mag e ++ '.' :: fpPart mag e

/-- Modelled from the spec: the finite-float branch of
`ValueEncoder.encode_value` (pytoon/encoder/value.py is absent from src/).
The float `±mag / 10^e` is written in decimal notation only, the trailing
fractional zeros and a bare trailing decimal point are stripped, and negative
zero is normalized to "0". -/
def fmtFinChars (neg : Bool) (mag : Nat) (e : Nat) : List Char :=
  if finCore mag e = ['0'] then finCore mag e
  else if neg then '-' :: finCore mag e
  else finCore mag e

/-- String form of `fmtFinChars`. -/
def fmtFin (neg : Bool) (mag : Nat) (e : Nat) : String :=
  String.mk (fmtFinChars neg mag e)

/-- Modelled from the spec: `ValueEncoder.encode_value`
(pytoon/encoder/value.py is absent from src/).  Scalars map to their
canonical unquoted text: None to "null", booleans to lowercase keywords,
integers to plain decimal, floats per `fmtFin` with NaN and the infinities
collapsing to "null", and strings pass through untouched (quoting is a
separate concern).  Arrays and objects are rejected with an encode error, as
pinned by tests/unit/test_value_encoder.py. -/
def encode_value : Value → Except EncodeErr String
  | .null => .ok "null"
  | .bool true => .ok "true"
  | .bool false => .ok "false"
  | .int n => .ok (intDec n)
  | .float .nan => .ok "null"
  | .float .inf => .ok "null"
  | .float .ninf => .ok "null"
  | .float (.fin neg mag e) => .ok (fmtFin neg mag e)
  | .str s => .ok s
  | .arr _ => .error (.unsupportedType "list")
  | .obj _ => .error (.unsupportedType "dict")

/-! ## Quoting Engine (pytoon/encoder/quoting.py, QuotingEngine) -/

/-- Digits-then-optional-fraction body of the number pattern: one or more
digits, optionally followed by a point and one or more digits (a digit is
required before the point, so ".5" does not match, as pinned by
tests/unit/test_quoting.py). -/
def numCore (l : List Char) : Bool :=
  let ds := l.takeWhile isDigitCh
  let r := l.dropWhile isDigitCh
  ds ≠ [] &&
    match r with
    | [] => true
    | '.' :: fs => fs ≠ [] && fs.all isDigitCh
    | _ => false

/-- The integer-or-decimal-number pattern of the Quoting Engine, with an
optional leading minus sign. -/
def matchesNumber (s : String) : Bool :=
  match s.data with
  | '-' :: rest => numCore rest
  | l => numCore l

/-- First character satisfies the predicate. -/
def headIs (p : Char → Bool) (s : String) : Bool :=
  match s.data with
  | [] => false
  | c :: _ => p c

/-- Last character satisfies the predicate. -/
def lastIs (p : Char → Bool) (s : String) : Bool :=
  match s.data.reverse with
  | [] => false
  | c :: _ => p c

/-- Starts with a minus sign immediately followed by a digit. -/
def startsNegNumber (s : String) : Bool :=
  match s.data with
  | '-' :: c :: _ => isDigitCh c
  | _ => false

/-- Starts with the two-character list-item marker "- ". -/
def startsDashSpace (s : String) : Bool :=
  match s.data with
  | '-' :: ' ' :: _ => true
  | _ => false

/-- Membership of a character in a string. -/
def containsCh (s : String) (c : Char) : Bool := s.data.contains c

/-- The structural characters whose presence forces quoting according to the
spec wording (section 4.2): colon, square brackets, curly braces, newline,
carriage return, backslash, double quote. -/
def specialSpecChars : List Char :=
  [':', '[', ']', '\x7b', '\x7d', '\n', '\r', '\\', '"']

/-- The structural character set the implementation actually checks: the
spec set plus the tab character ("tab is special char" in
tests/unit/test_quoting.py). -/
def specialChars : List Char := specialSpecChars ++ ['\t']

/-- A hyphen occurring after the first character ("some-thing" is pinned to
need quoting by tests/unit/test_quoting.py while "-item" is pinned not
to). -/
def hyphenAfterStart (s : String) : Bool := (s.data.drop 1).contains '-'

/-- Modelled from the spec: `QuotingEngine.needs_quoting`
(pytoon/encoder/quoting.py is absent from src/).  The ordered checks follow
the spec wording (section 4.2) refined by the unit tests, which additionally
pin that a tab character anywhere and a hyphen after the first character
force quoting. -/
def needs_quoting (text : String) (delim : Char := ',') : Bool :=
  if text == "" then true
  else if text == "true" || text == "false" || text == "null" then true
  else if matchesNumber text then true
  else if headIs isDigitCh text then true
  else if startsNegNumber text then true
  else if containsCh text delim then true
  else if headIs isWsCh text || lastIs isWsCh text then true
  else if startsDashSpace text then true
  else if text.data.any (fun c => specialChars.contains c) then true
  else if hyphenAfterStart text then true
  else false

/-- Escape the characters backslash, double quote, newline, carriage return
and tab, backslash first. -/
def escapeChars : List Char → List Char
  | [] => []
  | c :: cs =>
    (if c = '\\' then ['\\', '\\']
     else if c = '"' then ['\\', '"']
     else if c = '\n' then ['\\', 'n']
     else if c = '\r' then ['\\', 'r']
     else if c = '\t' then ['\\', 't']
     else [c]) ++ escapeChars cs

/-- Modelled from the spec: `QuotingEngine.quote_string`
(pytoon/encoder/quoting.py is absent from src/): wrap in double quotes and
escape backslash, quote, newline, carriage return and tab. -/
def quote_string (s : String) : String :=
  "\"" ++ String.mk (escapeChars s.data) ++ "\""

/-- Identifier-body character: letter, digit or underscore. -/
def isIdentCh (c : Char) : Bool := isLetterCh c || isDigitCh c || c = '_'

/-- Modelled from the spec: `QuotingEngine.is_safe_identifier`
(pytoon/encoder/quoting.py is absent from src/): a letter or underscore
followed by letters, digits or underscores.  The unit tests pin that a
leading underscore is accepted ("_private" is safe). -/
def is_safe_identifier (s : String) : Bool :=
  match s.data with
  | [] => false
  | c :: cs => (isLetterCh c || c = '_') && cs.all isIdentCh

/-! ## Tabular Analyzer (pytoon/encoder/tabular.py, TabularAnalyzer) -/

/-- Code-point comparison of character lists (true when the first is less
than or equal to the second in lexicographic code-point order). -/
def charsLe : List Char → List Char → Bool
  | [], _ => true
  | _ :: _, [] => false
  | c :: cs, d :: ds =>
    if c.toNat < d.toNat then true
    else if d.toNat < c.toNat then false
    else charsLe cs ds

/-- Code-point order on strings, the order Python's `sorted` applies to
keys. -/
def strLeB (a b : String) : Bool := charsLe a.data b.data

/-- Insert a string into a list kept in nondecreasing code-point order. -/
def insortStr (a : String) : List String → List String
  | [] => [a]
  | b :: bs => if strLeB a b then a :: b :: bs else b :: insortStr a bs

/-- Sort a list of strings into code-point order (insertion sort). -/
def sortStr : List String → List String
  | [] => []
  | a :: as => insortStr a (sortStr as)

/-- The key set of an object as a sorted duplicate-free list, the shape the
analyzer compares and returns. -/
def sortedKeySet (kvs : List (String × Value)) : List String :=
  sortStr (kvs.map Prod.fst).dedup

/-- The element is an object whose sorted key set equals `fields`. -/
def rowMatches (fields : List String) : Value → Bool
  | .obj kvs => sortedKeySet kvs == fields
  | _ => false

/-- The element is an object none of whose field values is itself an array
or an object. -/
def rowFlat : Value → Bool
  | .obj kvs => kvs.all (fun kv => isScalarV kv.2)
  | _ => false

/-- Modelled from the spec: `TabularAnalyzer.analyze`
(pytoon/encoder/tabular.py is absent from src/).  An empty array is
trivially tabular with no fields and score 0; a non-empty array is tabular
exactly when every element is an object with the same key set as the first
and no element nests an array or object, in which case the shared key set is
returned sorted in code-point order with score 100.  The score is the
uniformity percentage the tests pin to 0.0 or 100.0. -/
def analyze (xs : List Value) : Bool × List String × Nat :=
  match xs with
  | [] => (true, [], 0)
  | .obj kvs0 :: _ =>
    let fields := sortedKeySet kvs0
    if xs.all (fun e => rowMatches fields e) && xs.all rowFlat then
      (true, fields, 100)
    else (false, [], 0)
  | _ => (false, [], 0)

/-! ## Key-Folding Engine (pytoon/encoder/keyfolding.py, KeyFoldingEngine) -/

/-- Modelled from the spec: `KeyFoldingEngine._is_foldable_key`
(pytoon/encoder/keyfolding.py is absent from src/).  Fold-eligible keys
start with a letter and continue with letters, digits or underscores; the
unit tests pin that a leading underscore is rejected (private-key
protection), unlike `is_safe_identifier`. -/
def is_foldable_key (s : String) : Bool :=
  match s.data with
  | [] => false
  | c :: cs => isLetterCh c && cs.all isIdentCh

mutual

/-- Modelled from the spec: the chain-collapsing step of
`KeyFoldingEngine.fold`: while the value is a single-key object with a
fold-eligible inner key, append the inner key with a dot; otherwise stop
and process the value recursively. -/
def foldEntry (k : String) (v : Value) : String × Value :=
  match v with
  | .obj [(k2, v2)] =>
    if is_foldable_key k2 then
      foldEntry (k ++ "." ++ k2) v2
    else (k, .obj [(k2, foldValue v2)])
  | .obj kvs => (k, .obj (foldPairs kvs))
  | .arr xs => (k, .arr (foldList xs))
  | w => (k, w)
termination_by structural v

/-- Modelled from the spec: recursive folding of a value: objects fold each
entry, arrays fold each element, scalars are untouched. -/
def foldValue : Value → Value
  | .obj kvs => .obj (foldPairs kvs)
  | .arr xs => .arr (foldList xs)
  | v => v
termination_by structural x => x

/-- Fold every entry of an object: a fold-eligible key starts a collapsing
chain, any other key keeps its value (recursively folded). -/
def foldPairs : List (String × Value) → List (String × Value)
  | [] => []
  | (k, v) :: rest =>
    (if is_foldable_key k then foldEntry k v else (k, foldValue v)) :: foldPairs rest
termination_by structural l => l

/-- Fold every element of an array. -/
def foldList : List Value → List Value
  | [] => []
  | v :: vs => foldValue v :: foldList vs
termination_by structural l => l

end

/-- Modelled from the spec: `KeyFoldingEngine.fold`, the top-level entry
point on an object. -/
def fold (kvs : List (String × Value)) : List (String × Value) :=
  foldPairs kvs

/-! ## Canonical encoder (pytoon/core/encoder.py, Encoder) -/

/-- The encode configuration (spec section 3): indent width, delimiter,
key-folding mode and key-sort flag.  The ascii-escaping flag plays no role
in the claims and is omitted. -/
structure EncodeConfig where
  indent : Nat := 2
  delimiter : Char := ','
  keyFolding : Bool := false
  sortKeys : Bool := false
deriving Repr, DecidableEq

/-- The default configuration of `pytoon.encode`. -/
def defaultCfg : EncodeConfig := {}

/-- The tab-delimiter configuration. -/
def tabCfg : EncodeConfig := { delimiter := '\t' }

/-- The pipe-delimiter configuration. -/
def pipeCfg : EncodeConfig := { delimiter := '|' }

/-- The depth cap of the codec (spec section 3: default cap 100). -/
def MAX_DEPTH : Nat := 100

/-- A run of spaces. -/
def spaces (n : Nat) : String := String.mk (List.replicate n ' ')

/-- Join strings with a separator. -/
def joinStr (sep : String) : List String → String
  | [] => ""
  | [s] => s
  | s :: rest => s ++ sep ++ joinStr sep rest

/-- Token for a scalar value: strings go through the Quoting Engine, other
scalars through the Value Formatter. -/
def scalarToken (v : Value) (delim : Char) : Except EncodeErr String :=
  match v with
  | .str s => .ok (if needs_quoting s delim then quote_string s else s)
  | w => encode_value w

/-- Token for an object key: quoted by the exact same rule as values (spec
section 4.2). -/
def keyToken (k : String) (delim : Char) : String :=
  if needs_quoting k delim then quote_string k else k

/-- Look a field up in an object (missing fields read as null). -/
def lookupKey (k : String) (kvs : List (String × Value)) : Value :=
  match kvs.find? (fun p => p.1 == k) with
  | some p => p.2
  | none => .null

/-- Insert a pair into a list kept sorted by key in code-point order. -/
def insortPair (p : String × Value) :
    List (String × Value) → List (String × Value)
  | [] => [p]
  | q :: qs => if strLeB p.1 q.1 then p :: q :: qs else q :: insortPair p qs

/-- Sort an object by key (the key-sort flag). -/
def sortPairs : List (String × Value) → List (String × Value)
  | [] => []
  | p :: ps => insortPair p (sortPairs ps)

/-- One tabular row: the delimiter-joined, individually quoted field values
of one element, in field order. -/
def tabularRow (cfg : EncodeConfig) (depth : Nat) (fields : List String)
    (e : Value) : Except EncodeErr String :=
  match e with
  | .obj kvs => do
    let toks ← fields.mapM (fun f => scalarToken (lookupKey f kvs) cfg.delimiter)
    .ok (spaces (cfg.indent * depth) ++ joinStr (String.mk [cfg.delimiter]) toks)
  | _ => .error (.unsupportedType "row")

mutual

/-- Modelled from the spec: the Object Encoder composition inside
`Encoder.encode` (pytoon/core/encoder.py is absent from src/), spec section
4.5: one line per key; scalar values inline after ": "; object values as a
bare key line followed by the nested block one level deeper (an empty object
value yields just the bare key line); array values with the array header
fused onto the key token. -/
def encObjLines (fuel : Nat) (cfg : EncodeConfig) (depth : Nat)
    (kvs : List (String × Value)) : Except EncodeErr (List String) :=
  match fuel with
  | 0 => .error .maxDepth
  | fuel + 1 => do
    let kvs := if cfg.sortKeys then sortPairs kvs else kvs
    let lss ← kvs.mapM (fun kv =>
      encKvLines fuel cfg depth (spaces (cfg.indent * depth)) kv.1 kv.2)
    .ok lss.flatten
termination_by structural fuel

/-- One key-value entry: `lead` is the text that opens the first line (the
indentation, or a list-item dash prefix). -/
def encKvLines (fuel : Nat) (cfg : EncodeConfig) (depth : Nat)
    (lead : String) (k : String) (v : Value) : Except EncodeErr (List String) :=
  match fuel with
  | 0 => .error .maxDepth
  | fuel + 1 =>
    let kt := keyToken k cfg.delimiter
    match v with
    | .obj [] => .ok [lead ++ kt ++ ":"]
    | .obj kvs => do
      let body ← encObjLines fuel cfg (depth + 1) kvs
      .ok ((lead ++ kt ++ ":") :: body)
    | .arr xs => encArrLines fuel cfg depth (lead ++ kt) xs
    | w => do
      let tok ← scalarToken w cfg.delimiter
      .ok [lead ++ kt ++ ": " ++ tok]
termination_by structural fuel

/-- Modelled from the spec: the Array Encoder selection algorithm inside
`Encoder.encode` (pytoon/core/encoder.py is absent from src/), spec section
4.4: empty arrays are a bare `[0]:` header; arrays the Tabular Analyzer
accepts with a non-empty field list are tabular; arrays of scalars are
inline; everything else is the dash-prefixed list form.  `pre` is the text
the header is fused onto (indentation plus the owning key token, when any).
The emitted header never carries a delimiter marker, matching the encoder
unit tests (`encode([1,2,3], delimiter="|") == "[3]: 1|2|3"`). -/
def encArrLines (fuel : Nat) (cfg : EncodeConfig) (depth : Nat)
    (pre : String) (xs : List Value) : Except EncodeErr (List String) :=
  match fuel with
  | 0 => .error .maxDepth
  | fuel + 1 =>
    let n := natDec xs.length
    match xs with
    | [] => .ok [pre ++ "[0]:"]
    | _ =>
      match analyze xs with
      | (true, f :: fs, _) => do
        let rows ← xs.mapM (tabularRow cfg (depth + 1) (f :: fs))
        .ok ((pre ++ "[" ++ n ++ "]" ++ "\x7b"
              ++ joinStr (String.mk [cfg.delimiter]) (f :: fs) ++ "\x7d:") :: rows)
      | _ =>
        if xs.all isScalarV then do
          let toks ← xs.mapM (fun x => scalarToken x cfg.delimiter)
          .ok [pre ++ "[" ++ n ++ "]: " ++ joinStr (String.mk [cfg.delimiter]) toks]
        else do
          let itemss ← xs.mapM (fun x => encListItem fuel cfg (depth + 1) x)
          .ok ((pre ++ "[" ++ n ++ "]:") :: itemss.flatten)
termination_by structural fuel

/-- One list-form item (spec section 4.4, selection step 4): a scalar gets
`- value`; an empty object `- \x7bempty\x7d`; a non-empty object its first
pair inline after the dash with the remaining keys one depth deeper; a
nested array recurses with the header after the dash. -/
def encListItem (fuel : Nat) (cfg : EncodeConfig) (depth : Nat)
    (v : Value) : Except EncodeErr (List String) :=
  match fuel with
  | 0 => .error .maxDepth
  | fuel + 1 =>
    let ind := spaces (cfg.indent * depth)
    match v with
    | .obj [] => .ok [ind ++ "- " ++ "\x7b\x7d"]
    | .obj ((k, w) :: rest) => do
      let first ← encKvLines fuel cfg (depth + 1) (ind ++ "- ") k w
      let others ← encObjLines fuel cfg (depth + 1) rest
      .ok (first ++ others)
    | .arr xs => encArrLines fuel cfg (depth + 1) (ind ++ "- ") xs
    | w => do
      let tok ← scalarToken w cfg.delimiter
      .ok [ind ++ "- " ++ tok]
termination_by structural fuel

end

/-- Modelled from the spec: `Encoder.encode` and the public `pytoon.encode`
(pytoon/core/encoder.py is absent from src/): scalars become their token;
an object becomes its lines joined by newlines (the empty object becomes the
empty string); an array becomes its header and body lines; key folding, when
enabled, is applied to the value first. -/
def encodeToon (v : Value) (cfg : EncodeConfig := defaultCfg) :
    Except EncodeErr String :=
  match v with
  | .obj kvs =>
    let kvs := if cfg.keyFolding then fold kvs else kvs
    (encObjLines (MAX_DEPTH + 1) cfg 0 kvs).map (joinStr "\n")
  | .arr xs => (encArrLines (MAX_DEPTH + 1) cfg 0 "" xs).map (joinStr "\n")
  | w => scalarToken w cfg.delimiter

/-! ## Auxiliary encoders (pytoon/encoder/array.py and object.py) -/

/-- Split on a character (plain, quote-blind — used for field lists). -/
def splitOnCh (d : Char) : List Char → List (List Char)
  | [] => [[]]
  | c :: cs =>
    if c = d then [] :: splitOnCh d cs
    else
      match splitOnCh d cs with
      | [] => [[c]]
      | a :: rest => (c :: a) :: rest

/-- Split a string into its lines (on the newline character). -/
def splitLines (s : String) : List String :=
  (splitOnCh '\n' s.data).map String.mk

/-- Prefix every line of a block with `n` spaces. -/
def indentBlock (n : Nat) (s : String) : String :=
  joinStr "\n" ((splitLines s).map (fun l => spaces n ++ l))

/-- Drop a literal prefix from a string when present. -/
def dropLit (p : String) (s : String) : String :=
  if p.data.isPrefixOf s.data then String.mk (s.data.drop p.data.length) else s

mutual

/-- Modelled from the spec (section 9, array-under-key placeholder
artifact): the auxiliary `ArrayEncoder.encode` of pytoon/encoder/array.py,
absent from src/ and reconstructed from its unit tests
(tests/unit/test_array_encoder.py): every header starts with the literal
word "array"; a tab delimiter is signalled as a literal backslash-t hint
inside the brackets of a tabular header, while a pipe delimiter gets no
hint at all; rows and list items are indented by `indent` spaces. -/
def arrayEncoderAux (fuel : Nat) (indent : Nat) (delim : Char)
    (xs : List Value) : Except EncodeErr String :=
  match fuel with
  | 0 => .error .maxDepth
  | fuel + 1 =>
    let n := natDec xs.length
    match xs with
    | [] => .ok "array[0]:"
    | _ =>
      match analyze xs with
      | (true, f :: fs, _) => do
        let rows ← xs.mapM (fun e =>
          match e with
          | .obj kvs => do
            let toks ← (f :: fs).mapM (fun fi => scalarToken (lookupKey fi kvs) delim)
            .ok (spaces indent ++ joinStr (String.mk [delim]) toks)
          | _ => .error (.unsupportedType "row"))
        .ok ("array[" ++ n ++ (if delim = '\t' then "\\t" else "") ++ "]"
             ++ "\x7b" ++ joinStr (String.mk [delim]) (f :: fs) ++ "\x7d:"
             ++ joinStr "" (rows.map (fun r => "\n" ++ r)))
      | _ =>
        if xs.all isScalarV then do
          let toks ← xs.mapM (fun x => scalarToken x delim)
          .ok ("array[" ++ n ++ "]: " ++ joinStr (String.mk [delim]) toks)
        else do
          let items ← xs.mapM (fun e => do
            let t ← listItemAux fuel indent delim e
            .ok ("\n" ++ spaces indent ++ "- " ++ t))
          .ok ("array[" ++ n ++ "]:" ++ joinStr "" items)

/-- One list item of the auxiliary array encoder: the text written after
the dash. -/
def listItemAux (fuel : Nat) (indent : Nat) (delim : Char)
    (v : Value) : Except EncodeErr String :=
  match fuel with
  | 0 => .error .maxDepth
  | fuel + 1 =>
    match v with
    | .obj [] => .ok "\x7b\x7d"
    | .obj kvs => do
      let block ← objectEncoderAux fuel indent delim kvs
      match splitLines block with
      | [] => .ok ""
      | l :: ls =>
        .ok (joinStr "\n" (l :: ls.map (fun x => spaces (indent * 2) ++ x)))
    | .arr xs => arrayEncoderAux fuel indent delim xs
    | w => scalarToken w delim

/-- Modelled from the spec (section 9): the auxiliary
`ObjectEncoder.encode` of pytoon/encoder/object.py, absent from src/ and
reconstructed from its unit tests (tests/unit/test_object_encoder.py): an
array value is rendered through the auxiliary array encoder, appended after
"key: " when it fits one line — which produces the non-canonical literal
placeholder form such as "items: array[3]: 1,2,3" — and otherwise placed
on an indented block with the word "array" stripped from the header. -/
def objectEncoderAux (fuel : Nat) (indent : Nat) (delim : Char)
    (kvs : List (String × Value)) : Except EncodeErr String :=
  match fuel with
  | 0 => .error .maxDepth
  | fuel + 1 => do
    let pieces ← kvs.mapM (fun kv => do
      let kt := keyToken kv.1 delim
      match kv.2 with
      | .obj [] => .ok (kt ++ ":")
      | .obj kvs2 => do
        let block ← objectEncoderAux fuel indent delim kvs2
        .ok (kt ++ ":\n" ++ indentBlock indent block)
      | .arr xs => do
        let block ← arrayEncoderAux fuel indent delim xs
        if containsCh block '\n' then
          .ok (kt ++ ":\n" ++ spaces indent ++ dropLit "array" block)
        else
          .ok (kt ++ ": " ++ block)
      | w => do
        let tok ← scalarToken w delim
        .ok (kt ++ ": " ++ tok))
    .ok (joinStr "\n" pieces)

end

/-! ## Decoder (pytoon/decoder/scanner.py, parser_utils.py, depth_decoder.py) -/

/-- Decode-side error taxonomy (spec section 7): syntax errors are always
fatal; validation errors (count mismatches, duplicate keys) are fatal only
in strict mode. -/
inductive DecodeErr where
  | syntaxErr (msg : String) (line : Nat)
  | validation (msg : String) (line : Nat)
deriving Repr, DecidableEq

/-- A lenient-mode validation warning: message, source line, column. -/
structure VWarning where
  message : String
  line : Nat
  column : Nat
deriving Repr, DecidableEq

/-- A scanned line: de-indented content, computed depth, 1-based line
number. -/
structure ParsedLine where
  content : String
  depth : Nat
  lineNo : Nat
deriving Repr, DecidableEq

/-- Strip leading and trailing whitespace. -/
def trimStr (s : String) : String :=
  String.mk (((s.data.dropWhile isWsCh).reverse.dropWhile isWsCh).reverse)

/-- Modelled from the spec: `scan_lines` of pytoon/decoder/scanner.py
(absent from src/): split the text into lines, drop blank (whitespace-only)
lines, compute `depth = indentation / indent_size` and reject indentation
that is not an exact multiple. -/
def scan_lines (s : String) (indentSize : Nat) :
    Except DecodeErr (List ParsedLine) :=
  (splitLines s).enum.foldlM
    (fun acc p =>
      let raw := p.2
      if raw.data.all isWsCh then .ok acc
      else
        let ind := (raw.data.takeWhile (fun c => c = ' ')).length
        if ind % indentSize = 0 then
          .ok (acc ++ [⟨String.mk (raw.data.drop ind), ind / indentSize, p.1 + 1⟩])
        else .error (.syntaxErr "Indentation is not a multiple of indent size" (p.1 + 1)))
    []

/-- Undo the escape sequences of a quoted token. -/
def unescapeChars : List Char → List Char
  | [] => []
  | '\\' :: c :: cs =>
    (if c = 'n' then '\n' else if c = 't' then '\t'
     else if c = 'r' then '\r' else c) :: unescapeChars cs
  | c :: cs => c :: unescapeChars cs

/-- Scan for the closing quote of a token whose opening quote was already
consumed, honouring backslash escapes; returns the raw inside and the text
after the closing quote. -/
def splitAtClose : List Char → Option (List Char × List Char)
  | [] => none
  | '\\' :: c :: cs => (splitAtClose cs).map (fun p => ('\\' :: c :: p.1, p.2))
  | '"' :: cs => some ([], cs)
  | c :: cs => (splitAtClose cs).map (fun p => (c :: p.1, p.2))

/-- Split at the first occurrence of a character. -/
def splitAtCh (d : Char) : List Char → Option (List Char × List Char)
  | [] => none
  | c :: cs =>
    if c = d then some ([], cs)
    else (splitAtCh d cs).map (fun p => (c :: p.1, p.2))

/-- Modelled from the spec: `parse_key_token` of
pytoon/decoder/parser_utils.py (absent from src/): a quoted key is read up
to its closing quote and unescaped, an unquoted key runs to the first
colon; the text after the colon is returned alongside. -/
def parse_key_token (content : String) : Option (String × String) :=
  match content.data with
  | '"' :: rest =>
    match splitAtClose rest with
    | some (inside, after) =>
      match after with
      | ':' :: r => some (String.mk (unescapeChars inside), String.mk r)
      | _ => none
    | none => none
  | l =>
    match splitAtCh ':' l with
    | some (k, r) => some (String.mk k, String.mk r)
    | none => none

/-- The line contains a colon outside of quoted segments. -/
def hasTopColon (s : String) : Bool :=
  go false s.data
where
  go (inQ : Bool) : List Char → Bool
    | [] => false
    | '\\' :: _ :: cs => go inQ cs
    | '"' :: cs => go (!inQ) cs
    | ':' :: cs => if inQ then go inQ cs else true
    | _ :: cs => go inQ cs

/-- Decimal digits to a natural number. -/
def digitsToNat (l : List Char) : Nat :=
  l.foldl (fun a c => a * 10 + (c.toNat - 48)) 0

/-- Modelled from the spec: `parse_bracket_segment` of
pytoon/decoder/parser_utils.py (absent from src/): a raw tab or pipe as the
final character of the bracket content is a delimiter marker; the rest,
with surrounding spaces stripped, must be the declared length (a negative
number and garbage are rejected, per tests/unit/test_parser_utils.py). -/
def parse_bracket_segment (seg : List Char) (line : Nat) :
    Except DecodeErr (Nat × Option Char) :=
  let (body, marker) :=
    match seg.reverse with
    | '\t' :: r => (r.reverse, some '\t')
    | '|' :: r => (r.reverse, some '|')
    | _ => (seg, none)
  let t := ((body.dropWhile (fun c => c = ' ')).reverse.dropWhile
              (fun c => c = ' ')).reverse
  match t with
  | '-' :: _ => .error (.syntaxErr "Array length cannot be negative" line)
  | _ =>
    if t ≠ [] && t.all isDigitCh then .ok (digitsToNat t, marker)
    else .error (.syntaxErr "Invalid array header" line)

/-- A parsed array header: optional owning key, declared length, optional
delimiter marker, optional tabular field list (spec section 3). -/
structure ArrayHeaderInfo where
  key : Option String
  length : Nat
  marker : Option Char
  fields : Option (List String)
deriving Repr, DecidableEq


/-- Modelled from the spec: `parse_array_header` of
pytoon/decoder/parser_utils.py (absent from src/): recognises fused
`key[N...]...:` and root `[N...]...:` header lines, returning the header
info and the stripped inline payload when one follows the colon; a line
that is not an array header (no bracket, a colon or quote before the
bracket, no closing bracket, or no colon after it) yields `none`. -/
def parse_array_header (content : String) (line : Nat) :
    Except DecodeErr (Option (ArrayHeaderInfo × Option String)) :=
  match splitAtCh '[' content.data with
  | none => .ok none
  | some (kpart, rest) =>
    if kpart.contains ':' || kpart.contains '"' then .ok none
    else
      match splitAtCh ']' rest with
      | none => .ok none
      | some (seg, rest2) =>
        let fieldsPart : Option (List Char) × List Char :=
          match rest2 with
          | '\x7b' :: r =>
            match splitAtCh '\x7d' r with
            | some (fs, r2) => (some fs, r2)
            | none => (none, rest2)
          | _ => (none, rest2)
        match fieldsPart.2 with
        | ':' :: payload => do
          let (n, marker) ← parse_bracket_segment seg line
          let fields := fieldsPart.1.map (fun fs =>
            (splitOnCh (marker.getD ',') fs).map (fun f => trimStr (String.mk f)))
          let p := trimStr (String.mk payload)
          .ok (some
            ({ key := if kpart.isEmpty then none else some (String.mk kpart),
               length := n, marker := marker, fields := fields },
             if p = "" then none else some p))
        | _ => .ok none

/-- Parse the fractional form `digits.digits` into a decimal float. -/
def parseFloatChars (neg : Bool) (l : List Char) : Option Value :=
  let ds := l.takeWhile isDigitCh
  let r := l.dropWhile isDigitCh
  match r with
  | '.' :: fs =>
    if ds ≠ [] && fs ≠ [] && fs.all isDigitCh then
      some (.float (.fin neg (digitsToNat (ds ++ fs)) fs.length))
    else none
  | _ => none

/-- Modelled from the spec: `parse_primitive_token` of
pytoon/decoder/parser_utils.py (absent from src/): the stripped token is a
quoted string (unescaped), one of the keywords null/true/false, an integer,
a decimal float, or otherwise the bare string itself. -/
def parse_primitive_token (tok : String) (line : Nat) : Except DecodeErr Value :=
  let t := trimStr tok
  match t.data with
  | [] => .ok (.str "")
  | '"' :: rest =>
    match splitAtClose rest with
    | some (inside, after) =>
      if after.all isWsCh then .ok (.str (String.mk (unescapeChars inside)))
      else .error (.syntaxErr "Unexpected text after closing quote" line)
    | none => .error (.syntaxErr "Unterminated quoted string" line)
  | l =>
    if t = "null" then .ok .null
    else if t = "true" then .ok (.bool true)
    else if t = "false" then .ok (.bool false)
    else
      match l with
      | '-' :: rest =>
        if rest ≠ [] && rest.all isDigitCh then
          .ok (.int (-(digitsToNat rest : Int)))
        else
          match parseFloatChars true rest with
          | some v => .ok v
          | none => .ok (.str t)
      | _ =>
        if l ≠ [] && l.all isDigitCh then .ok (.int (digitsToNat l))
        else
          match parseFloatChars false l with
          | some v => .ok v
          | none => .ok (.str t)

/-- Modelled from the spec: the delimiter auto-detection of
`decode_inline_array` in pytoon/decoder/depth_decoder.py (absent from
src/): when the header carries no marker the splitter is chosen from the
payload text — a tab anywhere selects the tab splitter, else a pipe selects
the pipe splitter, else the comma default (pinned by
tests/unit/test_depth_decoder.py). -/
def detect_delimiter (payload : String) : Char :=
  if containsCh payload '\t' then '\t'
  else if containsCh payload '|' then '|'
  else ','

/-- Quote-aware split: the delimiter only separates outside quoted
segments; backslash escapes are skipped. -/
def splitQAux (d : Char) (inQ : Bool) : List Char → List (List Char)
  | [] => [[]]
  | '\\' :: c :: cs =>
    match splitQAux d inQ cs with
    | [] => [['\\', c]]
    | a :: rest => ('\\' :: c :: a) :: rest
  | c :: cs =>
    if c = '"' then
      match splitQAux d (!inQ) cs with
      | [] => [[c]]
      | a :: rest => (c :: a) :: rest
    else if c = d && !inQ then [] :: splitQAux d false cs
    else
      match splitQAux d inQ cs with
      | [] => [[c]]
      | a :: rest => (c :: a) :: rest

/-- Modelled from the spec: `parse_delimited_values` of
pytoon/decoder/parser_utils.py (absent from src/): split the payload on
the delimiter outside quotes and strip each piece; a blank payload holds no
values. -/
def parse_delimited_values (payload : String) (d : Char) : List String :=
  if trimStr payload = "" then []
  else (splitQAux d false payload.data).map (fun l => trimStr (String.mk l))

/-- Count-mismatch message, shaped exactly as the tests pin it. -/
def countMsg (what : String) (declared found : Nat) : String :=
  "Array declares " ++ natDec declared ++ " " ++ what ++ " but found "
    ++ natDec found

/-- The content opens with the list-item dash. -/
def startsDashC (s : String) : Bool :=
  match s.data with
  | '-' :: _ => true
  | _ => false

/-- Replace the value stored under an existing key (later value wins). -/
def replacePair (k : String) (v : Value) :
    List (String × Value) → List (String × Value)
  | [] => []
  | p :: ps => if p.1 == k then (k, v) :: ps else p :: replacePair k v ps

/-- Modelled from the spec: the duplicate-key rule of the Depth Decoder
(spec section 4.7): strict mode raises a `Duplicate key` error, lenient
mode overwrites with the later value and records a warning. -/
def insertPair (strict : Bool) (line : Nat) (acc : List (String × Value))
    (k : String) (v : Value) :
    Except DecodeErr (List (String × Value) × List VWarning) :=
  if acc.any (fun p => p.1 == k) then
    if strict then .error (.validation ("Duplicate key: " ++ k) line)
    else .ok (replacePair k v acc, [⟨"Duplicate key: " ++ k, line, 1⟩])
  else .ok (acc ++ [(k, v)], [])

/-- A line that reads as a tabular data row rather than a new statement:
anything strictly deeper than the header, or at header depth when it is
neither a key line nor a list item. -/
def isRowLine (hdepth : Nat) (l : ParsedLine) : Bool :=
  if hdepth < l.depth then true
  else if l.depth = hdepth then !hasTopColon l.content && !startsDashC l.content
  else false

/-- Decode the tabular rows of a payload-less header with a field list:
each row is split on the delimiter, parsed, and zipped with the fields; a
field-count mismatch is fatal in strict mode and a warning in lenient
mode (spec sections 4.7 and 4.8). -/
def decodeRows (strict : Bool) (delim : Char) (fields : List String)
    (rows : List ParsedLine) : Except DecodeErr (List Value × List VWarning) :=
  rows.foldlM
    (fun st r => do
      let vals ← (parse_delimited_values r.content delim).mapM
        (fun t => parse_primitive_token t r.lineNo)
      let msg := "Row has " ++ natDec vals.length ++ " values but expected "
        ++ natDec fields.length ++ " fields"
      if vals.length = fields.length then
        .ok (st.1 ++ [Value.obj (fields.zip vals)], st.2)
      else if strict then .error (.validation msg r.lineNo)
      else .ok (st.1 ++ [Value.obj (fields.zip vals)], st.2 ++ [⟨msg, r.lineNo, 1⟩]))
    ([], [])

mutual

/-- Modelled from the spec: `decode_object` of
pytoon/decoder/depth_decoder.py (absent from src/), spec section 4.7: the
recursive-descent object loop at expected depth `d`.  A shallower line ends
the object; a fused header line decodes an array value; `key: value`
decodes a scalar leaf; a bare `key:` opens a nested object when the next
line is deeper and otherwise reads as the empty string (pinned by
tests/unit/test_decoder.py); duplicate keys go through `insertPair`. -/
def decodeObject (fuel : Nat) (strict : Bool) (d : Nat)
    (acc : List (String × Value)) (ws : List VWarning)
    (lines : List ParsedLine) :
    Except DecodeErr (List (String × Value) × List VWarning × List ParsedLine) :=
  match fuel with
  | 0 => .error (.syntaxErr "Recursion limit exceeded" 0)
  | fuel + 1 =>
    match lines with
    | [] => .ok (acc, ws, [])
    | l :: rest =>
      if l.depth < d then .ok (acc, ws, lines)
      else if d < l.depth then .error (.syntaxErr "Unexpected indentation" l.lineNo)
      else do
        match ← parse_array_header l.content l.lineNo with
        | some (h, payload) =>
          match h.key with
          | some k => do
            let (v, ws2, rest2) ← decodeArray fuel strict h payload l.lineNo l.depth rest
            let (acc2, ws3) ← insertPair strict l.lineNo acc k v
            decodeObject fuel strict d acc2 (ws ++ ws2 ++ ws3) rest2
          | none => .error (.syntaxErr "Expected key" l.lineNo)
        | none =>
          match parse_key_token l.content with
          | none => .error (.syntaxErr "Expected key-value line" l.lineNo)
          | some (k, after) =>
            if trimStr after = "" then
              match rest with
              | r :: _ =>
                if d < r.depth then do
                  let (kvs, ws2, rest2) ← decodeObject fuel strict r.depth [] [] rest
                  let (acc2, ws3) ← insertPair strict l.lineNo acc k (.obj kvs)
                  decodeObject fuel strict d acc2 (ws ++ ws2 ++ ws3) rest2
                else do
                  let (acc2, ws3) ← insertPair strict l.lineNo acc k (.str "")
                  decodeObject fuel strict d acc2 (ws ++ ws3) rest
              | [] => do
                let (acc2, ws3) ← insertPair strict l.lineNo acc k (.str "")
                decodeObject fuel strict d acc2 (ws ++ ws3) rest
            else do
              let v ← parse_primitive_token after l.lineNo
              let (acc2, ws3) ← insertPair strict l.lineNo acc k v
              decodeObject fuel strict d acc2 (ws ++ ws3) rest
termination_by structural fuel

/-- Modelled from the spec: `decode_array_from_header` of
pytoon/decoder/depth_decoder.py (absent from src/), spec sections 4.4 and
4.7: an inline payload is split on the marker delimiter or the
auto-detected one and count-checked; a field list reads tabular rows; a
bare header reads dash-prefixed list items; declared-versus-actual count
mismatches are fatal in strict mode and warnings (with the actual data
kept) in lenient mode, with the exact messages the tests pin. -/
def decodeArray (fuel : Nat) (strict : Bool) (h : ArrayHeaderInfo)
    (payload : Option String) (hline : Nat) (hdepth : Nat)
    (lines : List ParsedLine) :
    Except DecodeErr (Value × List VWarning × List ParsedLine) :=
  match fuel with
  | 0 => .error (.syntaxErr "Recursion limit exceeded" 0)
  | fuel + 1 =>
    match payload with
    | some p => do
      let delim := h.marker.getD (detect_delimiter p)
      let items ← (parse_delimited_values p delim).mapM
        (fun t => parse_primitive_token t hline)
      if items.length = h.length then .ok (.arr items, [], lines)
      else if strict then
        .error (.validation (countMsg "items" h.length items.length) hline)
      else
        .ok (.arr items, [⟨countMsg "items" h.length items.length, hline, 1⟩], lines)
    | none =>
      match h.fields with
      | some fields => do
        let delim := h.marker.getD ','
        let rows := lines.takeWhile (isRowLine hdepth)
        let rest := lines.dropWhile (isRowLine hdepth)
        let (objs, ws) ← decodeRows strict delim fields rows
        if objs.length = h.length then .ok (.arr objs, ws, rest)
        else if strict then
          .error (.validation (countMsg "rows" h.length objs.length) hline)
        else
          .ok (.arr objs, ws ++ [⟨countMsg "rows" h.length objs.length, hline, 1⟩], rest)
      | none =>
        match lines with
        | l :: _ =>
          if startsDashC l.content && hdepth ≤ l.depth && l.depth ≤ hdepth + 1 then do
            let (items, ws, rest) ← decodeListItems fuel strict l.depth [] [] lines
            if items.length = h.length then .ok (.arr items, ws, rest)
            else if strict then
              .error (.validation (countMsg "items" h.length items.length) hline)
            else
              .ok (.arr items, ws ++ [⟨countMsg "items" h.length items.length, hline, 1⟩], rest)
          else
            if h.length = 0 then .ok (.arr [], [], lines)
            else if strict then
              .error (.validation (countMsg "items" h.length 0) hline)
            else .ok (.arr [], [⟨countMsg "items" h.length 0, hline, 1⟩], lines)
        | [] =>
          if h.length = 0 then .ok (.arr [], [], lines)
          else if strict then
            .error (.validation (countMsg "items" h.length 0) hline)
          else .ok (.arr [], [⟨countMsg "items" h.length 0, hline, 1⟩], lines)
termination_by structural fuel

/-- Modelled from the spec: `decode_list_array` and `decode_list_item` of
pytoon/decoder/depth_decoder.py (absent from src/), spec section 4.7: a
run of dash lines at the item depth; a bare dash is an empty object
(pinned); after the dash an array header recurses, a key opens an object
item whose remaining keys sit one depth deeper, and anything else is a
primitive. -/
def decodeListItems (fuel : Nat) (strict : Bool) (idepth : Nat)
    (acc : List Value) (ws : List VWarning) (lines : List ParsedLine) :
    Except DecodeErr (List Value × List VWarning × List ParsedLine) :=
  match fuel with
  | 0 => .error (.syntaxErr "Recursion limit exceeded" 0)
  | fuel + 1 =>
    match lines with
    | [] => .ok (acc, ws, [])
    | l :: rest =>
      if l.depth = idepth && startsDashC l.content then
        let itemText := trimStr (String.mk (l.content.data.drop 1))
        if itemText = "" then
          decodeListItems fuel strict idepth (acc ++ [.obj []]) ws rest
        else do
          match ← parse_array_header itemText l.lineNo with
          | some (hh, pay) =>
            match hh.key with
            | none => do
              let (v, ws2, rest2) ← decodeArray fuel strict hh pay l.lineNo l.depth rest
              decodeListItems fuel strict idepth (acc ++ [v]) (ws ++ ws2) rest2
            | some k => do
              let (v, ws2, rest2) ← decodeArray fuel strict hh pay l.lineNo (l.depth + 1) rest
              let (kvs, ws3, rest3) ← decodeObject fuel strict (idepth + 1) [(k, v)] [] rest2
              decodeListItems fuel strict idepth (acc ++ [.obj kvs]) (ws ++ ws2 ++ ws3) rest3
          | none =>
            match parse_key_token itemText with
            | some (k, after) =>
              if trimStr after = "" then
                match rest with
                | r :: _ =>
                  if idepth + 1 < r.depth then do
                    let (kvs2, ws2, rest2) ← decodeObject fuel strict r.depth [] [] rest
                    let (kvs, ws3, rest3) ←
                      decodeObject fuel strict (idepth + 1) [(k, .obj kvs2)] [] rest2
                    decodeListItems fuel strict idepth (acc ++ [.obj kvs]) (ws ++ ws2 ++ ws3) rest3
                  else do
                    let (kvs, ws3, rest3) ←
                      decodeObject fuel strict (idepth + 1) [(k, .str "")] [] rest
                    decodeListItems fuel strict idepth (acc ++ [.obj kvs]) (ws ++ ws3) rest3
                | [] =>
                  decodeListItems fuel strict idepth (acc ++ [.obj [(k, .str "")]]) ws rest
              else do
                let v ← parse_primitive_token after l.lineNo
                let (kvs, ws3, rest3) ← decodeObject fuel strict (idepth + 1) [(k, v)] [] rest
                decodeListItems fuel strict idepth (acc ++ [.obj kvs]) (ws ++ ws3) rest3
            | none => do
              let v ← parse_primitive_token itemText l.lineNo
              decodeListItems fuel strict idepth (acc ++ [v]) ws rest
      else .ok (acc, ws, lines)
termination_by structural fuel

end

/-- Modelled from the spec: `decode_toon` of
pytoon/decoder/depth_decoder.py and `Decoder.decode` of
pytoon/core/decoder.py (both absent from src/): empty or whitespace-only
input decodes to the empty object; a lone array header decodes the array; a
single line without a top-level colon is a primitive; otherwise the lines
form a root object.  Returns the value together with the validation
warnings accumulated in lenient mode. -/
def decode_toon (s : String) (strict : Bool) :
    Except DecodeErr (Value × List VWarning) := do
  if s.data.all isWsCh then .ok (.obj [], []) else
  let lines ← scan_lines s 2
  match lines with
  | [] => .ok (.obj [], [])
  | l :: rest =>
    let fuel := 4 * lines.length + 16
    match ← parse_array_header l.content l.lineNo with
    | some (h, payload) =>
      match h.key with
      | none => do
        let (v, ws, _) ← decodeArray fuel strict h payload l.lineNo l.depth rest
        .ok (v, ws)
      | some _ => do
        let (kvs, ws, _) ← decodeObject fuel strict l.depth [] [] lines
        .ok (.obj kvs, ws)
    | none =>
      if rest.isEmpty && !hasTopColon l.content then do
        let v ← parse_primitive_token l.content l.lineNo
        .ok (v, [])
      else do
        let (kvs, ws, _) ← decodeObject fuel strict 0 [] [] lines
        .ok (.obj kvs, ws)

/-- The public `pytoon.decode` of src/pytoon/__init__.py: it builds a
decoder and returns only the decoded value — the warning list of the
underlying run is not part of the result handed to the caller. -/
def decode (s : String) (strict : Bool := true) : Except DecodeErr Value :=
  (decode_toon s strict).map Prod.fst

/-! ## Lemmas about the decimal renderers -/

theorem digitChar_digit (d : Nat) (h : d < 10) : isDigitCh (digitChar d) = true := by
  interval_cases d <;> decide

theorem natDigitsRevF_digits (fuel : Nat) :
    ∀ (n : Nat), ∀ c ∈ natDigitsRevF fuel n, isDigitCh c = true := by
  induction fuel with
  | zero => intro n c hc; cases hc
  | succ fuel ih =>
    intro n c hc
    rw [natDigitsRevF] at hc
    split at hc
    · rename_i h
      simp only [List.mem_singleton] at hc
      subst hc
      exact digitChar_digit n h
    · rename_i h
      rcases List.mem_cons.mp hc with h1 | h1
      · subst h1
        exact digitChar_digit _ (Nat.mod_lt _ (by omega))
      · exact ih (n / 10) c h1

theorem natDigitsRev_digits (n : Nat) :
    ∀ c ∈ natDigitsRev n, isDigitCh c = true :=
  natDigitsRevF_digits (n + 1) n

theorem natDigitsRev_ne_nil (n : Nat) : natDigitsRev n ≠ [] := by
  rw [natDigitsRev, natDigitsRevF]
  split <;> simp

theorem natDigits_digits (n : Nat) : ∀ c ∈ natDigits n, isDigitCh c = true := by
  intro c hc
  exact natDigitsRev_digits n c (List.mem_reverse.mp hc)

theorem natDigits_ne_nil (n : Nat) : natDigits n ≠ [] := by
  simp [natDigits, natDigitsRev_ne_nil n]

theorem natDigits_zero : natDigits 0 = ['0'] := by rfl

theorem padDigits_digits (mag e : Nat) :
    ∀ c ∈ padDigits mag e, isDigitCh c = true := by
  intro c hc
  rcases List.mem_append.mp hc with h | h
  · rw [List.eq_of_mem_replicate h]; decide
  · exact natDigits_digits _ _ h

theorem padDigits_length (mag e : Nat) : e + 1 ≤ (padDigits mag e).length := by
  have h := natDigits_ne_nil mag
  have : 1 ≤ (natDigits mag).length := by
    cases hq : natDigits mag with
    | nil => exact absurd hq h
    | cons a l => simp
  simp only [padDigits, List.length_append, List.length_replicate]
  omega

theorem ipPart_digits (mag e : Nat) : ∀ c ∈ ipPart mag e, isDigitCh c = true :=
  fun c hc => padDigits_digits mag e c (List.mem_of_mem_take hc)

theorem ipPart_ne_nil (mag e : Nat) : ipPart mag e ≠ [] := by
  have h := padDigits_length mag e
  have : 0 < (ipPart mag e).length := by
    simp only [ipPart, List.length_take]
    omega
  exact List.ne_nil_of_length_pos this

theorem mem_stripTrailingZeros {c : Char} {l : List Char}
    (h : c ∈ stripTrailingZeros l) : c ∈ l := by
  simp only [stripTrailingZeros, List.mem_reverse] at h
  exact List.mem_reverse.mp ((List.dropWhile_sublist _).subset h)

theorem fpPart_digits (mag e : Nat) : ∀ c ∈ fpPart mag e, isDigitCh c = true :=
  fun c hc =>
    padDigits_digits mag e c (List.mem_of_mem_drop (mem_stripTrailingZeros hc))

theorem dropWhile_head_false {p : Char → Bool} :
    ∀ {l : List Char} {c cs}, l.dropWhile p = c :: cs → p c = false := by
  intro l
  induction l with
  | nil => intro c cs h; cases h
  | cons a as ih =>
    intro c cs h
    rw [List.dropWhile_cons] at h
    split at h
    · exact ih h
    · rename_i hpa
      cases h
      exact Bool.not_eq_true _ |>.mp hpa

theorem fpPart_getLast_ne_zero (mag e : Nat) :
    ∀ c, (fpPart mag e).getLast? = some c → c ≠ '0' := by
  intro c hc
  have h1 : (fpPart mag e).getLast? =
      (((padDigits mag e).drop ((padDigits mag e).length - e)).reverse.dropWhile
        (fun x => x = '0')).head? := by
    simp only [fpPart, stripTrailingZeros]
    exact List.getLast?_reverse _
  rw [h1] at hc
  cases hd : ((padDigits mag e).drop ((padDigits mag e).length - e)).reverse.dropWhile
      (fun x => x = '0') with
  | nil => rw [hd] at hc; cases hc
  | cons a l =>
    rw [hd] at hc
    simp only [List.head?_cons, Option.some.injEq] at hc
    subst hc
    have := dropWhile_head_false hd
    simpa using this

theorem finCore_ne_nil (mag e : Nat) : finCore mag e ≠ [] := by
  unfold finCore
  split
  · exact ipPart_ne_nil mag e
  · simp

theorem finCore_chars (mag e : Nat) :
    ∀ c ∈ finCore mag e, isDigitCh c = true ∨ c = '.' := by
  intro c hc
  unfold finCore at hc
  split at hc
  · exact .inl (ipPart_digits mag e c hc)
  · rcases List.mem_append.mp hc with h | h
    · exact .inl (ipPart_digits mag e c h)
    · rcases List.mem_cons.mp h with h1 | h1
      · exact .inr h1
      · exact .inl (fpPart_digits mag e c h1)

theorem fmtFinChars_chars (neg : Bool) (mag e : Nat) :
    ∀ c ∈ fmtFinChars neg mag e, isDigitCh c = true ∨ c = '.' ∨ c = '-' := by
  intro c hc
  unfold fmtFinChars at hc
  split at hc
  · rcases finCore_chars mag e c hc with h | h
    · exact .inl h
    · exact .inr (.inl h)
  · split at hc
    · rcases List.mem_cons.mp hc with h1 | h1
      · exact .inr (.inr h1)
      · rcases finCore_chars mag e c h1 with h | h
        · exact .inl h
        · exact .inr (.inl h)
    · rcases finCore_chars mag e c hc with h | h
      · exact .inl h
      · exact .inr (.inl h)

theorem padDigits_zero (e : Nat) : padDigits 0 e = List.replicate (e + 1) '0' := by
  rw [padDigits, natDigits_zero]
  have : e + 1 - ([' '].length) = e := by simp
  simp [List.replicate_succ']

theorem dropWhile_replicate_zero (k : Nat) :
    (List.replicate k '0').dropWhile (fun c => c = '0') = [] := by
  induction k with
  | zero => rfl
  | succ k ih => rw [List.replicate_succ, List.dropWhile_cons]; simp [ih]

theorem fpPart_zero (e : Nat) : fpPart 0 e = [] := by
  rw [fpPart, padDigits_zero]
  simp [List.drop_replicate, stripTrailingZeros, List.reverse_replicate,
    dropWhile_replicate_zero]

theorem ipPart_zero (e : Nat) : ipPart 0 e = ['0'] := by
  rw [ipPart, padDigits_zero]
  simp [List.take_replicate, List.length_replicate]

theorem finCore_zero (e : Nat) : finCore 0 e = ['0'] := by
  rw [finCore, fpPart_zero, ipPart_zero]
  rfl

theorem fmtFinChars_zero (neg : Bool) (e : Nat) :
    fmtFinChars neg 0 e = ['0'] := by
  rw [fmtFinChars, finCore_zero]
  simp

theorem finCore_getLast (mag e : Nat) :
    ∃ c, (finCore mag e).getLast? = some c ∧ isDigitCh c = true ∧
      ('.' ∈ finCore mag e → c ≠ '0') := by
  unfold finCore
  by_cases hfp : (fpPart mag e).isEmpty
  · rw [if_pos hfp]
    have hne := ipPart_ne_nil mag e
    refine ⟨(ipPart mag e).getLast hne, List.getLast?_eq_getLast _ hne, ?_, ?_⟩
    · exact ipPart_digits mag e _ (List.getLast_mem hne)
    · intro hdot
      have := ipPart_digits mag e '.' hdot
      simp [isDigitCh] at this
  · rw [if_neg hfp]
    have hne : fpPart mag e ≠ [] := by
      intro hq; rw [hq] at hfp; exact hfp rfl
    have hcons : ('.' :: fpPart mag e) ≠ [] := by simp
    refine ⟨(fpPart mag e).getLast hne, ?_, ?_, ?_⟩
    · rw [List.getLast?_append]
      rw [List.getLast?_eq_getLast ('.' :: fpPart mag e) hcons]
      rw [List.getLast_cons hne]
      rfl
    · exact fpPart_digits mag e _ (List.getLast_mem hne)
    · intro _
      exact fpPart_getLast_ne_zero mag e _ (List.getLast?_eq_getLast _ hne)

theorem fmtFinChars_getLast (neg : Bool) (mag e : Nat) :
    ∃ c, (fmtFinChars neg mag e).getLast? = some c ∧ isDigitCh c = true ∧
      ('.' ∈ fmtFinChars neg mag e → c ≠ '0') := by
  obtain ⟨c, h1, h2, h3⟩ := finCore_getLast mag e
  unfold fmtFinChars
  by_cases hz : finCore mag e = ['0']
  · rw [if_pos hz, hz]
    exact ⟨'0', rfl, by decide, fun h => absurd h (by decide)⟩
  · rw [if_neg hz]
    cases neg with
    | false =>
      rw [if_neg (by simp)]
      exact ⟨c, h1, h2, h3⟩
    | true =>
      rw [if_pos rfl]
      refine ⟨c, ?_, h2, ?_⟩
      · cases hq : finCore mag e with
        | nil => exact absurd hq (finCore_ne_nil mag e)
        | cons a l =>
          rw [hq] at h1
          rw [List.getLast?_cons_cons]
          exact h1
      · intro hdot
        apply h3
        rcases List.mem_cons.mp hdot with h | h
        · exact absurd h (by decide)
        · exact h

theorem intDec_data_ofNat (n : Nat) : (intDec (Int.ofNat n)).data = natDigits n := rfl

theorem intDec_data_negSucc (m : Nat) :
    (intDec (Int.negSucc m)).data = '-' :: natDigits (m + 1) := by
  show (("-" : String) ++ natDec (m + 1)).data = '-' :: natDigits (m + 1)
  rw [String.data_append]
  rfl

theorem intDec_ne_nil (n : Int) : (intDec n).data ≠ [] := by
  cases n with
  | ofNat k => rw [intDec_data_ofNat]; exact natDigits_ne_nil k
  | negSucc m => rw [intDec_data_negSucc]; simp

theorem intDec_chars (n : Int) :
    ∀ c ∈ (intDec n).data, isDigitCh c = true ∨ c = '-' := by
  cases n with
  | ofNat k =>
    rw [intDec_data_ofNat]
    exact fun c hc => .inl (natDigits_digits k c hc)
  | negSucc m =>
    rw [intDec_data_negSucc]
    intro c hc
    rcases List.mem_cons.mp hc with h | h
    · exact .inr h
    · exact .inl (natDigits_digits (m + 1) c h)

theorem intDec_tail_digits (n : Int) :
    ∀ c ∈ (intDec n).data.drop 1, isDigitCh c = true := by
  cases n with
  | ofNat k =>
    rw [intDec_data_ofNat]
    exact fun c hc => natDigits_digits k c (List.mem_of_mem_drop hc)
  | negSucc m =>
    rw [intDec_data_negSucc]
    exact fun c hc => natDigits_digits (m + 1) c (by simpa using hc)

/-! ## Claim theorems -/

/-- C5: for every scalar input the Value Formatter returns the canonical
unquoted text: None maps to "null", True to "true", False to "false";
integers map to plain decimal strings — non-empty, digits with at most a
leading minus sign, hence no grouping and no scientific notation; finite
floats map to decimal notation whose characters are digits, at most one
leading minus and a point — never exponent form — ending in a digit (so no
bare trailing point) which is not '0' whenever a fractional point is
present (trailing fractional zeros stripped); negative zero normalizes to
"0"; NaN, +Infinity and -Infinity all map to "null"; and every non-scalar
input (array or object) is rejected with an encode error. -/
theorem C5_value_formatter :
    encode_value .null = .ok "null" ∧
    encode_value (.bool true) = .ok "true" ∧
    encode_value (.bool false) = .ok "false" ∧
    (∀ n : Int, encode_value (.int n) = .ok (intDec n)) ∧
    (∀ n : Int, (intDec n).data ≠ [] ∧
      (∀ c ∈ (intDec n).data, isDigitCh c = true ∨ c = '-') ∧
      (∀ c ∈ (intDec n).data.drop 1, isDigitCh c = true)) ∧
    (∀ neg mag e, encode_value (.float (.fin neg mag e)) = .ok (fmtFin neg mag e)) ∧
    (∀ neg mag e, ∀ c ∈ (fmtFin neg mag e).data,
      isDigitCh c = true ∨ c = '.' ∨ c = '-') ∧
    (∀ neg mag e, ∃ c, (fmtFin neg mag e).data.getLast? = some c ∧
      isDigitCh c = true ∧ ('.' ∈ (fmtFin neg mag e).data → c ≠ '0')) ∧
    (∀ neg e, fmtFin neg 0 e = "0") ∧
    encode_value (.float .nan) = .ok "null" ∧
    encode_value (.float .inf) = .ok "null" ∧
    encode_value (.float .ninf) = .ok "null" ∧
    encode_value (.float (.fin false 30 1)) = .ok "3" ∧
    encode_value (.float (.fin false 1000000 0)) = .ok "1000000" ∧
    (∀ xs, encode_value (.arr xs) = .error (.unsupportedType "list")) ∧
    (∀ kvs, encode_value (.obj kvs) = .error (.unsupportedType "dict")) :=
  ⟨rfl, rfl, rfl, fun _ => rfl,
    fun n => ⟨intDec_ne_nil n, intDec_chars n, intDec_tail_digits n⟩,
    fun _ _ _ => rfl,
    fun neg mag e => fmtFinChars_chars neg mag e,
    fun neg mag e => fmtFinChars_getLast neg mag e,
    fun neg e => by
      show String.mk (fmtFinChars neg 0 e) = "0"
      rw [fmtFinChars_zero],
    rfl, rfl, rfl, rfl, rfl, fun _ => rfl, fun _ => rfl⟩

/-- Witness for C5 at concrete inputs: the float 3.14 (as `fin false 314
2`) formats with a digit last character that is not zero although a point
is present, and the integer -100 renders non-empty. -/
theorem C5_value_formatter_witness :
    (∃ c, (fmtFin false 314 2).data.getLast? = some c ∧
      isDigitCh c = true ∧ ('.' ∈ (fmtFin false 314 2).data → c ≠ '0')) ∧
    (intDec (-100 : Int)).data ≠ [] ∧
    fmtFin true 0 3 = "0" :=
  ⟨C5_value_formatter.2.2.2.2.2.2.2.1 false 314 2,
   (C5_value_formatter.2.2.2.2.1 (-100)).1,
   C5_value_formatter.2.2.2.2.2.2.2.2.1 true 3⟩

theorem specialChars_split (a : Char) :
    specialChars.contains a = (specialSpecChars.contains a || decide (a = '\t')) := by
  simp [specialChars, specialSpecChars, List.contains_cons, Bool.or_assoc]

theorem beq_tab (a : Char) : ('\t' == a) = decide (a = '\t') := by
  by_cases h : a = '\t'
  · subst h; simp
  · simp [h, beq_eq_false_iff_ne, Ne.symm h]

theorem any_specialChars (l : List Char) :
    l.any (fun c => specialChars.contains c)
    = (l.any (fun c => specialSpecChars.contains c) || l.contains '\t') := by
  induction l with
  | nil => rfl
  | cons a as ih =>
    rw [List.any_cons, ih, specialChars_split, List.any_cons, List.contains_cons,
      beq_tab]
    cases specialSpecChars.contains a <;> cases decide (a = '\t')
      <;> cases as.any (fun c => specialSpecChars.contains c)
      <;> cases as.contains '\t' <;> rfl

/-- The quoting conditions exactly as the spec's words of section 4.2 list
them (stated for the refinement comparison with `needs_quoting`): empty;
case-sensitive keyword; number pattern, digit start, or minus-digit start;
active delimiter; edge whitespace; list-item marker; one of the spec's
structural characters. -/
def spec_needs_quoting (text : String) (delim : Char) : Bool :=
  (text == "")
  || (text == "true" || text == "false" || text == "null")
  || matchesNumber text
  || headIs isDigitCh text
  || startsNegNumber text
  || containsCh text delim
  || (headIs isWsCh text || lastIs isWsCh text)
  || startsDashSpace text
  || text.data.any (fun c => specialSpecChars.contains c)

/-- C4 counterexample: the claim says `needs_quoting` is true exactly when
one of the spec's listed conditions holds and in particular that
"some-thing" — whose only special character is an interior hyphen — does
not need quoting; the implementation (pinned by its unit tests) returns
true on "some-thing" although none of the spec's listed conditions holds
there. -/
theorem C4_counterexample :
    needs_quoting "some-thing" ',' = true ∧
    spec_needs_quoting "some-thing" ',' = false := by
  exact ⟨by decide, by decide⟩

/-- C4 amended: `needs_quoting` is true exactly when one of the spec's
listed conditions holds, or the text contains a tab character anywhere, or
the text contains a hyphen after its first character (the two extra
conditions the unit tests pin: needs_quoting("a\tb", "|") is true and
needs_quoting("some-thing") is true while needs_quoting("-item") is
false). -/
theorem C4_needs_quoting (text : String) (delim : Char) :
    needs_quoting text delim
      = (spec_needs_quoting text delim || containsCh text '\t'
         || hyphenAfterStart text) := by
  unfold needs_quoting spec_needs_quoting containsCh
  rw [any_specialChars text.data]
  simp only [Bool.if_true_left, Bool.decide_eq_true, Bool.or_assoc, Bool.or_false]

/-! ## Lemmas about the key-set sorting -/

theorem charsLe_total : ∀ (a b : List Char), charsLe a b = false → charsLe b a = true := by
  intro a
  induction a with
  | nil => intro b h; simp [charsLe] at h
  | cons c cs ih =>
    intro b h
    cases b with
    | nil => rfl
    | cons d ds =>
      rw [charsLe] at h ⊢
      by_cases h1 : c.toNat < d.toNat
      · rw [if_pos h1] at h; cases h
      · rw [if_neg h1] at h
        by_cases h2 : d.toNat < c.toNat
        · rw [if_pos h2]
        · rw [if_neg h2] at h
          rw [if_neg (by omega), if_neg (by omega)]
          exact ih ds h

theorem charsLe_trans :
    ∀ (a b c : List Char), charsLe a b = true → charsLe b c = true →
      charsLe a c = true := by
  intro a
  induction a with
  | nil => intro b c _ _; rfl
  | cons x xs ih =>
    intro b c hab hbc
    cases b with
    | nil => rw [charsLe] at hab; cases hab
    | cons y ys =>
      cases c with
      | nil => rw [charsLe] at hbc; cases hbc
      | cons z zs =>
        rw [charsLe] at hab hbc ⊢
        by_cases h1 : x.toNat < y.toNat
        · by_cases h2 : y.toNat < z.toNat
          · rw [if_pos (by omega)]
          · rw [if_neg h2] at hbc
            by_cases h3 : z.toNat < y.toNat
            · rw [if_pos h3] at hbc; cases hbc
            · rw [if_pos (by omega)]
        · rw [if_neg h1] at hab
          by_cases h4 : y.toNat < x.toNat
          · rw [if_pos h4] at hab; cases hab
          · rw [if_neg h4] at hab
            by_cases h2 : y.toNat < z.toNat
            · rw [if_pos (by omega)]
            · rw [if_neg h2] at hbc
              by_cases h3 : z.toNat < y.toNat
              · rw [if_pos h3] at hbc; cases hbc
              · rw [if_neg h3] at hbc
                rw [if_neg (by omega), if_neg (by omega)]
                exact ih ys zs hab hbc

theorem charsLe_antisymm :
    ∀ (a b : List Char), charsLe a b = true → charsLe b a = true → a = b := by
  intro a
  induction a with
  | nil =>
    intro b _ hba
    cases b with
    | nil => rfl
    | cons d ds => rw [charsLe] at hba; cases hba
  | cons c cs ih =>
    intro b hab hba
    cases b with
    | nil => rw [charsLe] at hab; cases hab
    | cons d ds =>
      rw [charsLe] at hab hba
      by_cases h1 : c.toNat < d.toNat
      · rw [if_neg (by omega), if_pos h1] at hba; cases hba
      · by_cases h2 : d.toNat < c.toNat
        · rw [if_neg (by omega), if_pos h2] at hab; cases hab
        · rw [if_neg h1, if_neg h2] at hab
          rw [if_neg h2, if_neg h1] at hba
          have h3 : c.toNat = d.toNat := by omega
          have hcd : c = d := Char.eq_of_val_eq (UInt32.ext h3)
          rw [hcd, ih ds hab hba]

theorem strLeB_total (a b : String) (h : strLeB a b = false) : strLeB b a = true :=
  charsLe_total a.data b.data h

theorem strLeB_trans (a b c : String) (h1 : strLeB a b = true)
    (h2 : strLeB b c = true) : strLeB a c = true :=
  charsLe_trans a.data b.data c.data h1 h2

theorem strLeB_antisymm (a b : String) (h1 : strLeB a b = true)
    (h2 : strLeB b a = true) : a = b := by
  cases a with
  | mk la =>
    cases b with
    | mk lb => exact congrArg String.mk (charsLe_antisymm la lb h1 h2)

instance : IsAntisymm String (fun a b => strLeB a b = true) :=
  ⟨strLeB_antisymm⟩

/-- Sortedness in code-point order. -/
def SortedCp (l : List String) : Prop :=
  l.Sorted (fun a b => strLeB a b = true)

theorem insortStr_perm (a : String) (l : List String) :
    (insortStr a l).Perm (a :: l) := by
  induction l with
  | nil => exact List.Perm.refl _
  | cons b bs ih =>
    rw [insortStr]
    split
    · exact List.Perm.refl _
    · exact ((ih.cons b).trans (List.Perm.swap a b bs))

theorem sortStr_perm (l : List String) : (sortStr l).Perm l := by
  induction l with
  | nil => exact List.Perm.refl _
  | cons a as ih => exact (insortStr_perm a (sortStr as)).trans (ih.cons a)

theorem mem_sortStr {s : String} {l : List String} : s ∈ sortStr l ↔ s ∈ l :=
  (sortStr_perm l).mem_iff

theorem insortStr_sorted {a : String} {l : List String}
    (h : SortedCp l) : SortedCp (insortStr a l) := by
  induction l with
  | nil => simp [insortStr, SortedCp]
  | cons b bs ih =>
    rw [SortedCp, insortStr]
    rw [SortedCp, List.sorted_cons] at h
    split
    · rename_i hab
      rw [List.sorted_cons]
      refine ⟨?_, List.sorted_cons.mpr h⟩
      intro x hx
      rcases List.mem_cons.mp hx with h1 | h1
      · subst h1; exact hab
      · exact strLeB_trans _ _ _ hab (h.1 x h1)
    · rename_i hab
      rw [List.sorted_cons]
      refine ⟨?_, ih h.2⟩
      intro x hx
      rcases List.mem_cons.mp ((insortStr_perm a bs).mem_iff.mp hx) with h1 | h1
      · subst h1; exact strLeB_total _ _ (eq_false_of_ne_true hab)
      · exact h.1 x h1

theorem sortStr_sorted (l : List String) : SortedCp (sortStr l) := by
  induction l with
  | nil => simp [sortStr, SortedCp]
  | cons a as ih => exact insortStr_sorted ih

theorem sortedKeySet_sorted (kvs : List (String × Value)) :
    SortedCp (sortedKeySet kvs) := sortStr_sorted _

theorem sortedKeySet_nodup (kvs : List (String × Value)) :
    (sortedKeySet kvs).Nodup :=
  (sortStr_perm _).nodup_iff.mpr (List.nodup_dedup _)

theorem mem_sortedKeySet {s : String} {kvs : List (String × Value)} :
    s ∈ sortedKeySet kvs ↔ s ∈ kvs.map Prod.fst := by
  rw [sortedKeySet, mem_sortStr, List.mem_dedup]

theorem sortedKeySet_eq_iff {kvs1 kvs2 : List (String × Value)} :
    sortedKeySet kvs1 = sortedKeySet kvs2
      ↔ (∀ s, s ∈ kvs1.map Prod.fst ↔ s ∈ kvs2.map Prod.fst) := by
  constructor
  · intro h s
    rw [← mem_sortedKeySet, ← mem_sortedKeySet, h]
  · intro h
    refine List.eq_of_perm_of_sorted ?_ (sortedKeySet_sorted _) (sortedKeySet_sorted _)
    refine (List.perm_ext_iff_of_nodup (sortedKeySet_nodup _) (sortedKeySet_nodup _)).mpr ?_
    intro s
    rw [mem_sortedKeySet, mem_sortedKeySet]
    exact h s

/-- The pairs of an object value (empty for non-objects). -/
def objPairs : Value → List (String × Value)
  | .obj kvs => kvs
  | _ => []

/-- The claim predicate for C6, following the spec's words of section 4.3:
every element is an object, every element's key set is identical as a set,
and no element's value for any field is itself an array or object. -/
def SpecTabular (xs : List Value) : Prop :=
  (∀ e ∈ xs, ∃ kvs, e = Value.obj kvs) ∧
  (∀ e ∈ xs, ∀ e2 ∈ xs, ∀ s : String,
    (s ∈ (objPairs e).map Prod.fst ↔ s ∈ (objPairs e2).map Prod.fst)) ∧
  (∀ e ∈ xs, ∀ kv ∈ objPairs e, isScalarV kv.2 = true)

theorem rowMatches_iff {fields : List String} {e : Value} :
    rowMatches fields e = true
      ↔ ∃ kvs, e = Value.obj kvs ∧ sortedKeySet kvs = fields := by
  cases e <;> simp [rowMatches]

theorem rowFlat_obj {kvs : List (String × Value)} :
    rowFlat (.obj kvs) = true ↔ ∀ kv ∈ kvs, isScalarV kv.2 = true := by
  simp [rowFlat]

/-- C6: the Tabular Analyzer reports the empty array as tabular with an
empty field list (and zero score); a non-empty array is tabular if and only
if every element is an object, all elements share an identical key set and
no element's field value is itself an array or object (the `SpecTabular`
predicate); and whenever the analyzer accepts, the returned field list is
the shared key set — same members as every element's keys, duplicate-free —
sorted in code-point order.  `analyze` takes no configuration at all, so
the field order is independent of the encode-time key-sort flag by
construction. -/
theorem C6_tabular_analyzer :
    analyze [] = (true, [], 0) ∧
    (∀ xs, xs ≠ [] → ((analyze xs).1 = true ↔ SpecTabular xs)) ∧
    (∀ xs, (analyze xs).1 = true →
      SortedCp (analyze xs).2.1 ∧ (analyze xs).2.1.Nodup ∧
      (∀ e ∈ xs, ∀ s : String,
        (s ∈ (analyze xs).2.1 ↔ s ∈ (objPairs e).map Prod.fst))) := by
  refine ⟨rfl, ?_, ?_⟩
  · intro xs hne
    cases xs with
    | nil => exact absurd rfl hne
    | cons e rest =>
      cases e with
      | obj kvs0 =>
        simp only [analyze]
        split
        · rename_i hall
          rw [Bool.and_eq_true, List.all_eq_true, List.all_eq_true] at hall
          constructor
          · intro _
            refine ⟨?_, ?_, ?_⟩
            · intro e he
              obtain ⟨kvs, hk, -⟩ := rowMatches_iff.mp (hall.1 e he)
              exact ⟨kvs, hk⟩
            · intro e he e2 he2 s
              obtain ⟨kvs, hk, hset⟩ := rowMatches_iff.mp (hall.1 e he)
              obtain ⟨kvs2, hk2, hset2⟩ := rowMatches_iff.mp (hall.1 e2 he2)
              subst hk; subst hk2
              show s ∈ kvs.map Prod.fst ↔ s ∈ kvs2.map Prod.fst
              rw [← mem_sortedKeySet, ← mem_sortedKeySet, hset, hset2]
            · intro e he kv hkv
              obtain ⟨kvs, hk, -⟩ := rowMatches_iff.mp (hall.1 e he)
              subst hk
              exact (rowFlat_obj.mp (hall.2 _ he)) kv hkv
          · intro _; rfl
        · rename_i hall
          constructor
          · intro hfalse; exact absurd hfalse (by simp)
          · intro hst
            exfalso
            apply hall
            rw [Bool.and_eq_true, List.all_eq_true, List.all_eq_true]
            obtain ⟨h1, h2, h3⟩ := hst
            constructor
            · intro e he
              obtain ⟨kvs, hk⟩ := h1 e he
              subst hk
              rw [rowMatches_iff]
              refine ⟨kvs, rfl, ?_⟩
              rw [sortedKeySet_eq_iff]
              intro s
              exact h2 (.obj kvs) he (.obj kvs0) (List.mem_cons_self _ _) s
            · intro e he
              obtain ⟨kvs, hk⟩ := h1 e he
              subst hk
              exact rowFlat_obj.mpr (fun kv hkv => h3 _ he kv hkv)
      | null =>
        simp only [analyze]
        constructor
        · intro h; exact absurd h (by simp)
        · intro hst
          obtain ⟨kvs, hk⟩ := hst.1 _ (List.mem_cons_self _ _)
          cases hk
      | bool b =>
        simp only [analyze]
        constructor
        · intro h; exact absurd h (by simp)
        · intro hst
          obtain ⟨kvs, hk⟩ := hst.1 _ (List.mem_cons_self _ _)
          cases hk
      | int n =>
        simp only [analyze]
        constructor
        · intro h; exact absurd h (by simp)
        · intro hst
          obtain ⟨kvs, hk⟩ := hst.1 _ (List.mem_cons_self _ _)
          cases hk
      | float f =>
        simp only [analyze]
        constructor
        · intro h; exact absurd h (by simp)
        · intro hst
          obtain ⟨kvs, hk⟩ := hst.1 _ (List.mem_cons_self _ _)
          cases hk
      | str s =>
        simp only [analyze]
        constructor
        · intro h; exact absurd h (by simp)
        · intro hst
          obtain ⟨kvs, hk⟩ := hst.1 _ (List.mem_cons_self _ _)
          cases hk
      | arr ys =>
        simp only [analyze]
        constructor
        · intro h; exact absurd h (by simp)
        · intro hst
          obtain ⟨kvs, hk⟩ := hst.1 _ (List.mem_cons_self _ _)
          cases hk
  · intro xs htab
    cases xs with
    | nil =>
      refine ⟨by simp [analyze, SortedCp], by simp [analyze], by simp⟩
    | cons e rest =>
      cases e with
      | obj kvs0 =>
        simp only [analyze] at htab ⊢
        split at htab
        · rename_i hall
          rw [Bool.and_eq_true, List.all_eq_true, List.all_eq_true] at hall
          split
          · refine ⟨sortedKeySet_sorted kvs0, sortedKeySet_nodup kvs0, ?_⟩
            intro e he s
            obtain ⟨kvs, hk, hset⟩ := rowMatches_iff.mp (hall.1 e he)
            subst hk
            show s ∈ sortedKeySet kvs0 ↔ s ∈ kvs.map Prod.fst
            rw [← hset, mem_sortedKeySet]
          · rename_i hall2
            exact absurd (by rw [Bool.and_eq_true, List.all_eq_true, List.all_eq_true]; exact hall) hall2
        · exact absurd htab (by simp)
      | null => exact absurd htab (by simp [analyze])
      | bool b => exact absurd htab (by simp [analyze])
      | int n => exact absurd htab (by simp [analyze])
      | float f => exact absurd htab (by simp [analyze])
      | str s => exact absurd htab (by simp [analyze])
      | arr ys => exact absurd htab (by simp [analyze])
/-- Witness for C6 at the concrete array `[ {"id": 1} ]` from the analyzer
unit tests. -/
theorem C6_tabular_analyzer_witness :
    ((analyze [Value.obj [("id", Value.int 1)]]).1 = true
      ↔ SpecTabular [Value.obj [("id", Value.int 1)]]) ∧
    SortedCp (analyze [Value.obj [("id", Value.int 1)]]).2.1 :=
  ⟨C6_tabular_analyzer.2.1 _ (by simp),
   (C6_tabular_analyzer.2.2 _ (by rfl)).1⟩

/-- The auxiliary `ArrayEncoder.encode` with its Python defaults. -/
def array_encode (xs : List Value) (indent : Nat := 2) (delim : Char := ',') :
    Except EncodeErr String :=
  arrayEncoderAux (MAX_DEPTH + 1) indent delim xs

/-- The auxiliary `ObjectEncoder.encode` with its Python defaults. -/
def object_encode (kvs : List (String × Value)) (indent : Nat := 2)
    (delim : Char := ',') : Except EncodeErr String :=
  objectEncoderAux (MAX_DEPTH + 1) indent delim kvs

/-- The text between the first opening and the first closing square
bracket of an emitted line — the place a delimiter marker would sit. -/
def bracketSegment (s : String) : Option String :=
  match splitAtCh '[' s.data with
  | none => none
  | some (_, rest) =>
    match splitAtCh ']' rest with
    | none => none
    | some (seg, _) => some (String.mk seg)

/-- Encode, then decode the result in the given mode (none when the encode
side already fails). -/
def roundtrip (v : Value) (cfg : EncodeConfig) (strict : Bool) : Option Value :=
  match encodeToon v cfg with
  | .ok s => (decode s strict).toOption
  | .error _ => none

/-- C8 counterexample: the claim says the `is_safe_identifier` predicate
returns false for every string beginning with an underscore; the
implementation (pinned by tests/unit/test_quoting.py, test_starts_with_
underscore) accepts "_private". -/
theorem C8_counterexample : is_safe_identifier "_private" = true := by decide

/-- C8 amended: fold-eligibility is decided by the Key-Folding Engine's own
`_is_foldable_key` predicate — not by `is_safe_identifier` — and that
predicate does return false for every string beginning with an underscore,
so a single-key wrapper chain under "_private" is never folded into a
dotted path; `is_safe_identifier` itself accepts the leading underscore. -/
theorem C8_fold_eligibility :
    (∀ s : String, headIs (fun c => c = '_') s = true → is_foldable_key s = false) ∧
    fold [("_private", Value.obj [("data", Value.int 1)])]
      = [("_private", Value.obj [("data", Value.int 1)])] ∧
    is_foldable_key "_private" = false ∧
    is_safe_identifier "_private" = true := by
  refine ⟨?_, by rfl, by decide, by decide⟩
  intro s hs
  unfold headIs at hs
  unfold is_foldable_key
  cases hd : s.data with
  | nil => rw [hd] at hs
  | cons c cs =>
    rw [hd] at hs
    have hc : c = '_' := of_decide_eq_true hs
    subst hc
    show (isLetterCh '_' && cs.all isIdentCh) = false
    rw [show isLetterCh '_' = false from by decide]
    exact Bool.false_and _

/-- Witness for C8 amended at the key "_private". -/
theorem C8_fold_eligibility_witness : is_foldable_key "_private" = false :=
  C8_fold_eligibility.1 "_private" (by decide)

/-- C7: a key occurring twice at the same object level raises a Duplicate
key validation error in strict mode and, in lenient mode, is overwritten
with the later value — concretely decode("name: Alice\nname: Bob") raises
in strict mode and yields only name = Bob in lenient mode, and in general
the decoder's insertion step errs (strict) or replaces and warns (lenient)
whenever the key is already present. -/
theorem C7_duplicate_keys :
    decode "name: Alice\nname: Bob" true
      = .error (.validation "Duplicate key: name" 2) ∧
    decode "name: Alice\nname: Bob" false
      = .ok (.obj [("name", Value.str "Bob")]) ∧
    (∀ (acc : List (String × Value)) (k : String) (v : Value) (line : Nat),
      (∃ w, (k, w) ∈ acc) →
      insertPair true line acc k v
        = .error (.validation ("Duplicate key: " ++ k) line)) ∧
    (∀ (acc : List (String × Value)) (k : String) (v : Value) (line : Nat),
      (∃ w, (k, w) ∈ acc) →
      insertPair false line acc k v
        = .ok (replacePair k v acc, [⟨"Duplicate key: " ++ k, line, 1⟩])) := by
  have hmem : ∀ (acc : List (String × Value)) (k : String),
      (∃ w, (k, w) ∈ acc) → acc.any (fun p => p.1 == k) = true := by
    intro acc k ⟨w, hw⟩
    rw [List.any_eq_true]
    exact ⟨(k, w), hw, by simp⟩
  refine ⟨by rfl, by rfl, ?_, ?_⟩
  · intro acc k v line h
    unfold insertPair
    rw [if_pos (hmem acc k h), if_pos rfl]
  · intro acc k v line h
    unfold insertPair
    rw [if_pos (hmem acc k h)]
    rfl

/-- Witness for C7 at a one-entry object already holding the key. -/
theorem C7_duplicate_keys_witness :
    insertPair true 2 [("name", Value.str "Alice")] "name" (Value.str "Bob")
      = .error (.validation "Duplicate key: name" 2) :=
  C7_duplicate_keys.2.2.1 _ _ _ _ ⟨Value.str "Alice", by simp⟩

/-- C10: an inline array header without a delimiter marker auto-detects the
delimiter from the payload — decode("[3]: 1|2|3") and
decode("[3]:\t1\t2\t3") both give [1, 2, 3]; a tab anywhere in the payload
selects the tab splitter and otherwise a pipe selects the pipe splitter, so
an unquoted token containing a pipe or a tab is split into several elements
rather than kept as one string (decode("[2]: a|b") gives ["a", "b"]). -/
theorem C10_delimiter_autodetect :
    decode "[3]: 1|2|3" true = .ok (.arr [.int 1, .int 2, .int 3]) ∧
    decode "[3]:\t1\t2\t3" true = .ok (.arr [.int 1, .int 2, .int 3]) ∧
    (∀ payload : String, containsCh payload '\t' = true →
      detect_delimiter payload = '\t') ∧
    (∀ payload : String, containsCh payload '\t' = false →
      containsCh payload '|' = true → detect_delimiter payload = '|') ∧
    decode "[2]: a|b" true = .ok (.arr [.str "a", .str "b"]) := by
  refine ⟨by rfl, by rfl, ?_, ?_, by rfl⟩
  · intro payload h
    unfold detect_delimiter
    rw [if_pos h]
  · intro payload h1 h2
    unfold detect_delimiter
    rw [if_neg (by rw [h1]; exact Bool.false_ne_true), if_pos h2]

/-- Witness for C10 at the payload "a|b". -/
theorem C10_delimiter_autodetect_witness : detect_delimiter "a|b" = '|' :=
  C10_delimiter_autodetect.2.2.2.1 "a|b" (by decide) (by decide)

/-- C3 counterexample: the lenient decode of "[3]: 1,2" does produce the
array [1, 2] and the underlying run does accumulate exactly the one count
warning, but the public `decode` of src/pytoon/__init__.py returns only the
first component of that run — the caller receives the bare value and no
warning alongside it, refuting the surfacing clause of the claim. -/
theorem C3_counterexample :
    decode "[3]: 1,2" false = .ok (.arr [.int 1, .int 2]) ∧
    decode_toon "[3]: 1,2" false
      = .ok (.arr [.int 1, .int 2],
             [⟨"Array declares 3 items but found 2", 1, 1⟩]) ∧
    decode "[3]: 1,2" false = (decode_toon "[3]: 1,2" false).map Prod.fst := by
  exact ⟨by rfl, by rfl, by rfl⟩

/-- C3 amended: decode("[3]: 1,2", strict) raises the count-mismatch
validation error; decode("[3]: 1,2", lenient) succeeds with [1, 2] built
from the actually observed items, and the decoding run accumulates exactly
one validation warning — which the public decode does not return to the
caller. -/
theorem C3_count_mismatch :
    decode "[3]: 1,2" true
      = .error (.validation "Array declares 3 items but found 2" 1) ∧
    decode "[3]: 1,2" false = .ok (.arr [.int 1, .int 2]) ∧
    (decode_toon "[3]: 1,2" false).map (fun p => p.2.length) = .ok 1 := by
  exact ⟨by rfl, by rfl, by rfl⟩

/-- C1: the round-trip guarantee fails at the value with an empty object
under a key.  The spec's Object Encoder writes the value a = empty-object
as the bare line "a:" (key line with an empty nested block), and the
decoder — as its own unit test pins — reads a bare "key:" line with no
deeper block as the empty string, so strict decoding of the encoded text
returns a different value. -/
theorem C1_roundtrip_failure :
    encodeToon (.obj [("a", .obj [])]) defaultCfg = .ok "a:" ∧
    decode "a:" true = .ok (.obj [("a", Value.str "")]) ∧
    roundtrip (.obj [("a", .obj [])]) defaultCfg true
      = some (.obj [("a", Value.str "")]) ∧
    Value.obj [("a", Value.str "")] ≠ Value.obj [("a", Value.obj [])] := by
  refine ⟨by rfl, by rfl, by rfl, ?_⟩
  simp

/-- C2: the auxiliary ObjectEncoder (pytoon/encoder/object.py, pinned by
its unit tests) emits the literal placeholder word before the array header
— "items: array[3]: 1,2,3" — for an array value under a key, while the
canonical form of spec section 4.5 fuses the header onto the key,
"items[3]: 1,2,3"; the two differ, and the placeholder form is not even a
prefix-compatible variant (the canonical line does not contain the
"items:" token the encoder tests demand). -/
theorem C2_placeholder_artifact :
    object_encode [("items", .arr [.int 1, .int 2, .int 3])]
      = .ok "items: array[3]: 1,2,3" ∧
    encodeToon (.obj [("items", .arr [.int 1, .int 2, .int 3])]) defaultCfg
      = .ok "items[3]: 1,2,3" ∧
    "items: array[3]: 1,2,3" ≠ "items[3]: 1,2,3" := by
  exact ⟨by rfl, by rfl, by decide⟩

/-- C9 counterexample: arrays encoded with the pipe delimiter carry no
marker inside the header brackets: the main encoder emits "[3]: 1|2|3" for
[1, 2, 3] (bracket content "3") and the auxiliary ArrayEncoder emits a
plain "[1]" bracket for a pipe-delimited tabular array, exactly as their
unit tests pin. -/
theorem C9_counterexample :
    encodeToon (.arr [.int 1, .int 2, .int 3]) pipeCfg = .ok "[3]: 1|2|3" ∧
    bracketSegment "[3]: 1|2|3" = some "3" ∧
    containsCh "3" '|' = false ∧
    array_encode [.obj [("a", .int 1), ("b", .int 2)]] 2 '|'
      = .ok "array[1]\x7ba|b\x7d:\n  1|2" ∧
    bracketSegment "array[1]\x7ba|b\x7d:\n  1|2" = some "1" ∧
    containsCh "1" '|' = false := by
  exact ⟨by rfl, by rfl, by decide, by rfl, by rfl, by decide⟩


/-- Splitting at the first occurrence of a character not present in the
prefix. -/
theorem splitAtCh_append (c : Char) (l1 l2 : List Char) (h : c ∉ l1) :
    splitAtCh c (l1 ++ c :: l2) = some (l1, l2) := by
  induction l1 with
  | nil => simp [splitAtCh]
  | cons x xs ih =>
    rw [List.cons_append, splitAtCh]
    rw [if_neg (fun hx => h (List.mem_cons.mpr (Or.inl hx.symm)))]
    rw [ih (fun hm => h (List.mem_cons_of_mem x hm))]
    rfl

/-- The bracket segment of a string of the shape pre ++ [ ++ mid ++ ] ++
post with no bracket inside pre or mid. -/
theorem bracketSegment_of (s : String) (pre mid post : List Char)
    (hs : s.data = pre ++ '[' :: (mid ++ ']' :: post))
    (h1 : '[' ∉ pre) (h2 : ']' ∉ mid) :
    bracketSegment s = some (String.mk mid) := by
  unfold bracketSegment
  rw [hs]
  simp only [splitAtCh_append '[' pre (mid ++ ']' :: post) h1,
    splitAtCh_append ']' mid post h2]

theorem digit_ne_rbracket {c : Char} (h : isDigitCh c = true) : ¬ c = ']' := by
  intro he
  subst he
  exact absurd h (by decide)

/-- Destructing a successful Except bind. -/
theorem exceptE_bind_ok {α β : Type} {m : Except EncodeErr α}
    {f : α → Except EncodeErr β} {b : β}
    (h : (m >>= f) = .ok b) : ∃ a, m = .ok a ∧ f a = .ok b := by
  cases m with
  | error e => exact absurd h (by simp [Bind.bind, Except.bind])
  | ok a => exact ⟨a, rfl, h⟩

/-- C9 amended: the delimiter marker exists only as the auxiliary
ArrayEncoder writing a literal backslash-t hint inside the brackets of a
tab-delimited tabular header; a pipe-delimited tabular header from the same
encoder carries no marker at all (its bracket segment is the bare decimal
length), and the decoder side does accept the [N-tab] and [N-pipe] marker
forms while falling back to payload auto-detection for unmarked headers. -/
theorem C9_delimiter_markers :
    (∀ (xs : List Value) (indent : Nat) (f : String) (fs : List String)
        (sc : Nat) (out : String),
      analyze xs = (true, f :: fs, sc) →
      array_encode xs indent '\t' = .ok out →
      bracketSegment out = some (natDec xs.length ++ "\\t")) ∧
    (∀ (xs : List Value) (indent : Nat) (f : String) (fs : List String)
        (sc : Nat) (out : String),
      analyze xs = (true, f :: fs, sc) →
      array_encode xs indent '|' = .ok out →
      bracketSegment out = some (natDec xs.length)) ∧
    parse_bracket_segment ['3', '\t'] 1 = .ok (3, some '\t') ∧
    parse_bracket_segment ['3', '|'] 1 = .ok (3, some '|') ∧
    parse_bracket_segment ['3'] 1 = .ok (3, none) := by
  refine ⟨?_, ?_, by rfl, by rfl, by rfl⟩
  · intro xs indent f fs sc out ha he
    cases xs with
    | nil => simp [analyze] at ha
    | cons x rest =>
      simp only [array_encode, MAX_DEPTH] at he
      unfold arrayEncoderAux at he
      rw [ha] at he
      obtain ⟨rows, hrows, hout⟩ := exceptE_bind_ok he
      have hout2 := hout
      rw [Except.ok.injEq] at hout2
      subst hout2
      rw [if_pos rfl]
      rw [show natDec (x :: rest).length ++ "\\t"
          = String.mk (natDigits (x :: rest).length ++ ['\\', 't']) from rfl]
      refine bracketSegment_of _ "array".data
        (natDigits (x :: rest).length ++ ['\\', 't'])
        ("\x7b" ++ joinStr (String.mk ['\t']) (f :: fs) ++ "\x7d:"
          ++ joinStr "" (rows.map (fun r => "\n" ++ r))).data ?_ (by decide) ?_
      · simp [String.data_append, natDec, List.append_assoc]
      · intro hm
        rcases List.mem_append.mp hm with hm1 | hm1
        · exact digit_ne_rbracket (natDigits_digits _ _ hm1) rfl
        · simp at hm1
  · intro xs indent f fs sc out ha he
    cases xs with
    | nil => simp [analyze] at ha
    | cons x rest =>
      simp only [array_encode, MAX_DEPTH] at he
      unfold arrayEncoderAux at he
      rw [ha] at he
      obtain ⟨rows, hrows, hout⟩ := exceptE_bind_ok he
      have hout2 := hout
      rw [Except.ok.injEq] at hout2
      subst hout2
      rw [if_neg (by decide)]
      rw [show natDec (x :: rest).length
          = String.mk (natDigits (x :: rest).length) from rfl]
      refine bracketSegment_of _ "array".data
        (natDigits (x :: rest).length)
        ("\x7b" ++ joinStr (String.mk ['|']) (f :: fs) ++ "\x7d:"
          ++ joinStr "" (rows.map (fun r => "\n" ++ r))).data ?_ (by decide) ?_
      · simp [String.data_append, natDec, List.append_assoc]
      · intro hm
        exact digit_ne_rbracket (natDigits_digits _ _ hm) rfl

/-- Witness for C9 amended at the one-row tabular array from the
ArrayEncoder unit tests. -/
theorem C9_delimiter_markers_witness :
    bracketSegment "array[1\\t]\x7ba\x7d:\n  1" = some "1\\t" :=
  C9_delimiter_markers.1 [Value.obj [("a", Value.int 1)]] 2 "a" [] 100
    "array[1\\t]\x7ba\x7d:\n  1" (by rfl) (by rfl)

end PyTOON
